import Mathlib

/- Verification development for the BOM remover (src/main.py).

   The program has two parts: a strip operation (`remove_bom`) that reads a
   file, removes a leading byte-order mark matching a chosen encoding, and
   writes the result back; and a directory walker (`process_directory`) that
   dispatches files to the stripper and optionally recurses into
   subdirectories.  File contents are modelled as lists of byte values
   (`List Nat`), the filesystem as an inductive tree of entries, and read or
   listing failures as explicit flags, so that every code path of the Python
   source has a counterpart here. -/

namespace FileBomRemover

/-- The UTF-8 BOM signature, bytes EF BB BF (`codecs.BOM_UTF8`). -/
def BOM_UTF8 : List Nat := [0xEF, 0xBB, 0xBF]

/-- The UTF-16 little-endian BOM signature, bytes FF FE (`codecs.BOM_UTF16_LE`). -/
def BOM_UTF16_LE : List Nat := [0xFF, 0xFE]

/-- The UTF-16 big-endian BOM signature, bytes FE FF (`codecs.BOM_UTF16_BE`). -/
def BOM_UTF16_BE : List Nat := [0xFE, 0xFF]

/-- The `BOM_ENCODINGS` dictionary of src/main.py lines 11-15, accessed with
`dict.get`: `none` models the `None` returned for a key outside the
dictionary. -/
def BOM_ENCODINGS (encoding : String) : Option (List Nat) :=
  if encoding = "utf-8" then some BOM_UTF8
  else if encoding = "utf-16le" then some BOM_UTF16_LE
  else if encoding = "utf-16be" then some BOM_UTF16_BE
  else none

/-- Python `bytes.startswith`: true iff the first `pre.length` bytes of
`content` equal `pre` (in particular false whenever `content` is shorter
than `pre`). -/
def startsWith (content pre : List Nat) : Bool :=
  content.take pre.length == pre

/-- Outcome of the pure strip step (src/main.py lines 33-48), carrying the
resulting content bytes. -/
inductive Outcome where
  | Stripped (content : List Nat)
  | NoBOMFound (content : List Nat)
  | UnsupportedEncoding
deriving DecidableEq

/-- The pure core of `remove_bom` (src/main.py lines 33-48): look up the
signature for the encoding, return an error value when the lookup fails
(line 34-36), strip the signature when the content starts with it
(lines 38-45), and otherwise leave the content unchanged (lines 46-48). -/
def stripBOM (content : List Nat) (encoding : String) : Outcome :=
  match BOM_ENCODINGS encoding with
  | none => Outcome.UnsupportedEncoding
  | some bom =>
    if startsWith content bom then Outcome.Stripped (content.drop bom.length)
    else Outcome.NoBOMFound content

/-- Observable result of one `remove_bom` call.  The four cases are told
apart in src/main.py by the log line emitted and the value returned:
`return True` after writing the new content (line 45), `return False` with a
debug log (line 48), `return None` after the error log
"Unsupported encoding: ..." (lines 35-36), and `return None` after the error
log "Error processing ...: ..." from the exception handler (lines 50-51). -/
inductive RemoveBomOutcome where
  | stripped (newContent : List Nat)
  | noBOMFound
  | unsupportedEncoding
  | ioError
deriving DecidableEq

/-- The Python return value of `remove_bom`: `True`, `False`, or `None`. -/
def pyReturn : RemoveBomOutcome → Option Bool
  | RemoveBomOutcome.stripped _ => some true
  | RemoveBomOutcome.noBOMFound => some false
  | RemoveBomOutcome.unsupportedEncoding => none
  | RemoveBomOutcome.ioError => none

/-- The bytes written back to the file by `remove_bom`, if any: only the
stripped branch (src/main.py lines 42-43) opens the file for writing. -/
def writeEffect : RemoveBomOutcome → Option (List Nat)
  | RemoveBomOutcome.stripped nc => some nc
  | _ => none

/-- `remove_bom` (src/main.py lines 29-51).  `readResult` is the result of
the `open`/`read` at lines 30-31: `some content` when the read succeeds,
`none` when it raises (the exception is caught at line 49).  The source
reads the file first; only afterwards does it look up the encoding and
inspect the content. -/
def remove_bom (readResult : Option (List Nat)) (encoding : String) :
    RemoveBomOutcome :=
  match readResult with
  | none => RemoveBomOutcome.ioError
  | some content =>
    match stripBOM content encoding with
    | Outcome.UnsupportedEncoding => RemoveBomOutcome.unsupportedEncoding
    | Outcome.Stripped nc => RemoveBomOutcome.stripped nc
    | Outcome.NoBOMFound _ => RemoveBomOutcome.noBOMFound

/-- The content of the file after `process_file` (src/main.py lines 54-69):
the written bytes when `remove_bom` wrote, the original bytes otherwise.
`readable` tells whether the initial read succeeds; a failed read is logged
and leaves the file as it was. -/
def process_file (readable : Bool) (content : List Nat) (encoding : String) :
    List Nat :=
  match writeEffect (remove_bom (if readable then some content else none) encoding) with
  | some nc => nc
  | none => content

/-- The file content after one strip attempt, given the outcome of
`stripBOM`: the stripped bytes when the BOM was removed, the untouched
original otherwise. -/
def outcomeBytes (original : List Nat) : Outcome → List Nat
  | Outcome.Stripped c => c
  | Outcome.NoBOMFound c => c
  | Outcome.UnsupportedEncoding => original

/-- A directory entry: a regular file with its content bytes and a flag
telling whether it can be read, or a directory with its immediate entries
and a flag telling whether `os.listdir` on it succeeds. -/
inductive Entry where
  | file (name : String) (content : List Nat) (readable : Bool)
  | dir (name : String) (entries : List Entry) (listable : Bool)

mutual

/-- One iteration of the `process_directory` loop (src/main.py lines 82-90)
on a single entry: a file goes through `process_file` (line 86); a directory
is entered only when `recursive` is true (lines 87-88), where the nested
`process_directory` call lists it if it can (its `OSError` is caught at its
own line 92), and is skipped entirely otherwise (lines 89-90). -/
def processEntry (encoding : String) (recursive : Bool) : Entry → Entry
  | Entry.file n c r => Entry.file n (process_file r c encoding) r
  | Entry.dir n es l =>
    if recursive then
      if l then Entry.dir n (processEntries encoding recursive es) l
      else Entry.dir n es l
    else Entry.dir n es l

/-- The `for item in os.listdir(directory)` loop of `process_directory`,
entry by entry. -/
def processEntries (encoding : String) (recursive : Bool) : List Entry → List Entry
  | [] => []
  | e :: es => processEntry encoding recursive e :: processEntries encoding recursive es

end

/-- `process_directory` (src/main.py lines 72-95) on a directory entry: list
it — a failed `os.listdir` raises `OSError`, caught at line 92, so nothing
in this directory is processed — then run the loop over its immediate
entries. -/
def process_directory (encoding : String) (recursive : Bool) : Entry → Entry
  | Entry.file n c r => Entry.file n c r
  | Entry.dir n es l =>
    if l then Entry.dir n (processEntries encoding recursive es) l
    else Entry.dir n es l

/- Helper lemmas. -/

/-- A byte list starts with `pre` exactly when it is `pre` followed by some
suffix. -/
lemma startsWith_iff_append (B pre : List Nat) :
    startsWith B pre = true ↔ ∃ rest, B = pre ++ rest := by
  unfold startsWith
  constructor
  · intro h
    have h' : B.take pre.length = pre := by simpa using h
    exact ⟨B.drop pre.length, by conv_lhs => rw [← List.take_append_drop pre.length B, h']⟩
  · rintro ⟨rest, rfl⟩
    simp [List.take_left]

/-- An input shorter than `pre` never starts with `pre`. -/
lemma startsWith_eq_false_of_short (B pre : List Nat)
    (h : B.length < pre.length) : startsWith B pre = false := by
  unfold startsWith
  have ht : B.take pre.length = B := List.take_of_length_le (Nat.le_of_lt h)
  rw [ht]
  by_contra hb
  have heq : B = pre := by simpa using Bool.of_not_eq_false hb
  subst heq
  exact absurd h (lt_irrefl _)

/-- The signature produced by a successful lookup is one of the three BOM
constants. -/
lemma bom_cases (E : String) (bom : List Nat)
    (hE : BOM_ENCODINGS E = some bom) :
    bom = BOM_UTF8 ∨ bom = BOM_UTF16_LE ∨ bom = BOM_UTF16_BE := by
  unfold BOM_ENCODINGS at hE
  by_cases h1 : E = "utf-8"
  · simp only [h1, if_true] at hE
    exact Or.inl (Option.some.inj hE).symm
  · simp only [h1, if_false] at hE
    by_cases h2 : E = "utf-16le"
    · simp only [h2, if_true] at hE
      exact Or.inr (Or.inl (Option.some.inj hE).symm)
    · simp only [h2, if_false] at hE
      by_cases h3 : E = "utf-16be"
      · simp only [h3, if_true] at hE
        exact Or.inr (Or.inr (Option.some.inj hE).symm)
      · simp only [h3, if_false] at hE
        exact absurd hE (by simp)

/-- Every supported signature has length 2 or 3, in particular is nonempty. -/
lemma bom_length_pos (E : String) (bom : List Nat)
    (hE : BOM_ENCODINGS E = some bom) : 0 < bom.length := by
  rcases bom_cases E bom hE with h | h | h <;> subst h <;> decide

/-- A readable file whose content is the signature followed by `c` holds
exactly `c` after `process_file`. -/
lemma process_file_strips (E : String) (bom : List Nat)
    (hE : BOM_ENCODINGS E = some bom) (c : List Nat) :
    process_file true (bom ++ c) E = c := by
  have h : startsWith (bom ++ c) bom = true :=
    (startsWith_iff_append (bom ++ c) bom).2 ⟨c, rfl⟩
  have h1 : stripBOM (bom ++ c) E = Outcome.Stripped c := by
    simp [stripBOM, hE, h, List.drop_left]
  simp [process_file, remove_bom, h1, writeEffect]

/-- Processing a listing distributes over concatenation of listings. -/
lemma processEntries_append (E : String) (r : Bool) (xs ys : List Entry) :
    processEntries E r (xs ++ ys)
      = processEntries E r xs ++ processEntries E r ys := by
  induction xs with
  | nil => simp [processEntries]
  | cons e es ih => simp [processEntries, ih]

/- Claim theorems. -/

/-- C1: for every supported encoding `E` with signature `bom` and every
byte sequence `B` that starts with `bom`, `stripBOM` reports `Stripped`
with exactly `B` minus its first `bom.length` bytes: `B` is the signature
followed by the output, the length drops by exactly `bom.length`, and that
length is 3 for utf-8 and 2 for the two utf-16 variants. -/
theorem stripBOM_exact_truncation (E : String) (bom : List Nat)
    (hE : BOM_ENCODINGS E = some bom) (B : List Nat)
    (hpre : startsWith B bom = true) :
    stripBOM B E = Outcome.Stripped (B.drop bom.length)
      ∧ B = bom ++ B.drop bom.length
      ∧ (B.drop bom.length).length + bom.length = B.length
      ∧ (E = "utf-8" → bom.length = 3)
      ∧ (E = "utf-16le" → bom.length = 2)
      ∧ (E = "utf-16be" → bom.length = 2) := by
  obtain ⟨rest, rfl⟩ := (startsWith_iff_append B bom).1 hpre
  refine ⟨by simp [stripBOM, hE, hpre], by rw [List.drop_left], ?_, ?_, ?_, ?_⟩
  · rw [List.drop_left]
    simp [List.length_append]
    omega
  · intro h
    subst h
    unfold BOM_ENCODINGS at hE
    simp at hE
    subst hE
    decide
  · intro h
    subst h
    unfold BOM_ENCODINGS at hE
    simp at hE
    subst hE
    decide
  · intro h
    subst h
    unfold BOM_ENCODINGS at hE
    simp at hE
    subst hE
    decide

/-- Witness for C1 at the end-to-end example of the spec: EF BB BF plus
"Hello" under utf-8 becomes "Hello". -/
theorem stripBOM_exact_truncation_witness :
    BOM_ENCODINGS "utf-8" = some BOM_UTF8
      ∧ startsWith [0xEF, 0xBB, 0xBF, 0x48, 0x65, 0x6C, 0x6C, 0x6F] BOM_UTF8 = true
      ∧ stripBOM [0xEF, 0xBB, 0xBF, 0x48, 0x65, 0x6C, 0x6C, 0x6F] "utf-8"
          = Outcome.Stripped [0x48, 0x65, 0x6C, 0x6C, 0x6F] := by
  refine ⟨by decide, by decide, ?_⟩
  exact (stripBOM_exact_truncation "utf-8" BOM_UTF8 (by decide)
    [0xEF, 0xBB, 0xBF, 0x48, 0x65, 0x6C, 0x6C, 0x6F] (by decide)).1

/-- C2: for every supported encoding and every input that does not start
with its signature — including every input shorter than the signature and
the empty input — `stripBOM` reports `NoBOMFound` with the input bytes
unchanged; a too-short input is a no-match, not an error. -/
theorem stripBOM_preserves_without_bom (E : String) (bom : List Nat)
    (hE : BOM_ENCODINGS E = some bom) :
    (∀ B, startsWith B bom = false → stripBOM B E = Outcome.NoBOMFound B)
      ∧ (∀ B : List Nat, B.length < bom.length → stripBOM B E = Outcome.NoBOMFound B)
      ∧ stripBOM [] E = Outcome.NoBOMFound [] := by
  have hmain : ∀ B, startsWith B bom = false → stripBOM B E = Outcome.NoBOMFound B := by
    intro B h
    simp [stripBOM, hE, h]
  refine ⟨hmain, fun B h => hmain B (startsWith_eq_false_of_short B bom h), ?_⟩
  exact hmain [] (startsWith_eq_false_of_short [] bom (by simpa using bom_length_pos E bom hE))

/-- Witness for C2: the one-byte input 41 under utf-16le, and the empty
input, are both reported `NoBOMFound` and kept unchanged. -/
theorem stripBOM_preserves_without_bom_witness :
    BOM_ENCODINGS "utf-16le" = some BOM_UTF16_LE
      ∧ startsWith [0x41] BOM_UTF16_LE = false
      ∧ stripBOM [0x41] "utf-16le" = Outcome.NoBOMFound [0x41]
      ∧ stripBOM [] "utf-16le" = Outcome.NoBOMFound [] := by
  refine ⟨by decide, by decide, ?_, ?_⟩
  · exact (stripBOM_preserves_without_bom "utf-16le" BOM_UTF16_LE (by decide)).1 [0x41] (by decide)
  · exact (stripBOM_preserves_without_bom "utf-16le" BOM_UTF16_LE (by decide)).2.2

/-- C3 as stated fails when the content is exactly the signature: the
signature is then a prefix but not a strict prefix of the content, yet the
code removes it, so the result is neither covered by the strict-prefix
disjunct nor equal to the original content.  Shown at content EF BB BF with
encoding utf-8, where a strict prefix is a decomposition with a nonempty
remainder. -/
theorem strict_prefix_invariant_counterexample :
    ¬ ((∃ rest, rest ≠ ([] : List Nat)
          ∧ [0xEF, 0xBB, 0xBF] = BOM_UTF8 ++ rest
          ∧ outcomeBytes [0xEF, 0xBB, 0xBF] (stripBOM [0xEF, 0xBB, 0xBF] "utf-8") = rest)
        ∨ outcomeBytes [0xEF, 0xBB, 0xBF] (stripBOM [0xEF, 0xBB, 0xBF] "utf-8")
            = [0xEF, 0xBB, 0xBF]) := by
  rintro (⟨rest, hne, hB, hres⟩ | h)
  · have hlen := congrArg List.length hB
    simp only [BOM_UTF8, List.length_append, List.length_cons, List.length_nil] at hlen
    exact hne (List.length_eq_zero.mp (by omega))
  · exact absurd h (by decide)

/-- C3 amended: the BOM signature is never removed in part — for every
supported encoding, either the full signature is a prefix of the content
(not necessarily strict) and is removed entirely, or the content is
reported `NoBOMFound` and kept byte-for-byte unchanged. -/
theorem stripBOM_all_or_nothing (E : String) (bom : List Nat)
    (hE : BOM_ENCODINGS E = some bom) (B : List Nat) :
    (∃ rest, B = bom ++ rest ∧ stripBOM B E = Outcome.Stripped rest)
      ∨ stripBOM B E = Outcome.NoBOMFound B := by
  by_cases h : startsWith B bom = true
  · obtain ⟨rest, rfl⟩ := (startsWith_iff_append B bom).1 h
    exact Or.inl ⟨rest, rfl, by simp [stripBOM, hE, h, List.drop_left]⟩
  · have h' : startsWith B bom = false := by simpa using h
    exact Or.inr (by simp [stripBOM, hE, h'])

/-- Witness for the amended C3 at the one-byte input 00 under utf-16be. -/
theorem stripBOM_all_or_nothing_witness :
    BOM_ENCODINGS "utf-16be" = some BOM_UTF16_BE
      ∧ ((∃ rest, [0x00] = BOM_UTF16_BE ++ rest
            ∧ stripBOM [0x00] "utf-16be" = Outcome.Stripped rest)
          ∨ stripBOM [0x00] "utf-16be" = Outcome.NoBOMFound [0x00]) :=
  ⟨by decide, stripBOM_all_or_nothing "utf-16be" BOM_UTF16_BE (by decide) [0x00]⟩

/-- C4 as stated fails on content that begins with two copies of the
signature: the first application strips one copy, and the second
application, instead of reporting `NoBOMFound` and leaving the bytes
unchanged, strips the second copy.  Shown at content EF BB BF EF BB BF with
encoding utf-8. -/
theorem strip_idempotent_counterexample :
    ¬ (stripBOM (outcomeBytes [0xEF, 0xBB, 0xBF, 0xEF, 0xBB, 0xBF]
          (stripBOM [0xEF, 0xBB, 0xBF, 0xEF, 0xBB, 0xBF] "utf-8")) "utf-8"
        = Outcome.NoBOMFound (outcomeBytes [0xEF, 0xBB, 0xBF, 0xEF, 0xBB, 0xBF]
            (stripBOM [0xEF, 0xBB, 0xBF, 0xEF, 0xBB, 0xBF] "utf-8"))) := by
  decide

/-- C4 amended: for every supported encoding `E` and every content that
does not begin with two consecutive copies of `E`'s signature, applying the
strip operation twice yields the same bytes as applying it once: the second
application reports `NoBOMFound` and leaves the bytes unchanged. -/
theorem strip_idempotent (E : String) (bom : List Nat)
    (hE : BOM_ENCODINGS E = some bom) (B : List Nat)
    (hnd : startsWith B (bom ++ bom) = false) :
    stripBOM (outcomeBytes B (stripBOM B E)) E
        = Outcome.NoBOMFound (outcomeBytes B (stripBOM B E))
      ∧ outcomeBytes (outcomeBytes B (stripBOM B E))
          (stripBOM (outcomeBytes B (stripBOM B E)) E)
        = outcomeBytes B (stripBOM B E) := by
  by_cases h : startsWith B bom = true
  · obtain ⟨rest, rfl⟩ := (startsWith_iff_append B bom).1 h
    have h1 : stripBOM (bom ++ rest) E = Outcome.Stripped rest := by
      simp [stripBOM, hE, h, List.drop_left]
    have h2 : startsWith rest bom = false := by
      by_contra hb
      have hb' : startsWith rest bom = true := by simpa using hb
      obtain ⟨tail, rfl⟩ := (startsWith_iff_append rest bom).1 hb'
      have hcontra : startsWith (bom ++ (bom ++ tail)) (bom ++ bom) = true := by
        rw [startsWith_iff_append]
        exact ⟨tail, by rw [List.append_assoc]⟩
      rw [hcontra] at hnd
      simp at hnd
    have h3 : stripBOM rest E = Outcome.NoBOMFound rest := by simp [stripBOM, hE, h2]
    rw [h1]
    simp [outcomeBytes, h3]
  · have h' : startsWith B bom = false := by simpa using h
    have h1 : stripBOM B E = Outcome.NoBOMFound B := by simp [stripBOM, hE, h']
    rw [h1]
    simp [outcomeBytes, h1]

/-- Witness for the amended C4 at content EF BB BF 48 under utf-8: the
second application reports `NoBOMFound`. -/
theorem strip_idempotent_witness :
    BOM_ENCODINGS "utf-8" = some BOM_UTF8
      ∧ startsWith [0xEF, 0xBB, 0xBF, 0x48] (BOM_UTF8 ++ BOM_UTF8) = false
      ∧ stripBOM (outcomeBytes [0xEF, 0xBB, 0xBF, 0x48]
            (stripBOM [0xEF, 0xBB, 0xBF, 0x48] "utf-8")) "utf-8"
          = Outcome.NoBOMFound (outcomeBytes [0xEF, 0xBB, 0xBF, 0x48]
              (stripBOM [0xEF, 0xBB, 0xBF, 0x48] "utf-8")) :=
  ⟨by decide, by decide,
    (strip_idempotent "utf-8" BOM_UTF8 (by decide) [0xEF, 0xBB, 0xBF, 0x48] (by decide)).1⟩

/-- C5: for every encoding identifier outside the supported set and every
input, the strip operation yields `UnsupportedEncoding` — never a silent
no-op (`NoBOMFound` or `Stripped`) — and at the `remove_bom` level this
outcome is distinct from the `ioError` outcome of open/read/write
failures. -/
theorem unsupported_encoding_rejected (E : String)
    (h1 : E ≠ "utf-8") (h2 : E ≠ "utf-16le") (h3 : E ≠ "utf-16be") :
    (∀ B, stripBOM B E = Outcome.UnsupportedEncoding)
      ∧ (∀ B, remove_bom (some B) E = RemoveBomOutcome.unsupportedEncoding)
      ∧ (∀ B C, stripBOM B E ≠ Outcome.NoBOMFound C)
      ∧ (∀ B C, stripBOM B E ≠ Outcome.Stripped C)
      ∧ RemoveBomOutcome.unsupportedEncoding ≠ RemoveBomOutcome.ioError := by
  have hnone : BOM_ENCODINGS E = none := by simp [BOM_ENCODINGS, h1, h2, h3]
  have hstrip : ∀ B, stripBOM B E = Outcome.UnsupportedEncoding := by
    intro B
    simp [stripBOM, hnone]
  refine ⟨hstrip, ?_, ?_, ?_, by decide⟩
  · intro B
    simp [remove_bom, hstrip B]
  · intro B C
    simp [hstrip B]
  · intro B C
    simp [hstrip B]

/-- Witness for C5 at the unsupported identifier "latin-1". -/
theorem unsupported_encoding_rejected_witness :
    "latin-1" ≠ "utf-8" ∧ "latin-1" ≠ "utf-16le" ∧ "latin-1" ≠ "utf-16be"
      ∧ stripBOM [0xEF, 0xBB, 0xBF] "latin-1" = Outcome.UnsupportedEncoding :=
  ⟨by decide, by decide, by decide,
    (unsupported_encoding_rejected "latin-1" (by decide) (by decide) (by decide)).1
      [0xEF, 0xBB, 0xBF]⟩

/-- C6: for every supported encoding and every content that does not start
with its signature, processing the file performs no write at all and leaves
the file's bytes untouched. -/
theorem no_write_without_bom (E : String) (bom : List Nat)
    (hE : BOM_ENCODINGS E = some bom) (B : List Nat)
    (h : startsWith B bom = false) :
    writeEffect (remove_bom (some B) E) = none ∧ process_file true B E = B := by
  have h1 : stripBOM B E = Outcome.NoBOMFound B := by simp [stripBOM, hE, h]
  have h2 : remove_bom (some B) E = RemoveBomOutcome.noBOMFound := by
    simp [remove_bom, h1]
  constructor
  · simp [h2, writeEffect]
  · simp [process_file, h2, writeEffect]

/-- Witness for C6 at the BOM-free content 48 65 under utf-8. -/
theorem no_write_without_bom_witness :
    BOM_ENCODINGS "utf-8" = some BOM_UTF8
      ∧ startsWith [0x48, 0x65] BOM_UTF8 = false
      ∧ writeEffect (remove_bom (some [0x48, 0x65]) "utf-8") = none
      ∧ process_file true [0x48, 0x65] "utf-8" = [0x48, 0x65] := by
  refine ⟨by decide, by decide, ?_, ?_⟩
  · exact (no_write_without_bom "utf-8" BOM_UTF8 (by decide) [0x48, 0x65] (by decide)).1
  · exact (no_write_without_bom "utf-8" BOM_UTF8 (by decide) [0x48, 0x65] (by decide)).2

/-- C7: for a directory containing a BOM-prefixed readable file `fn1` and a
subdirectory `sn` holding another BOM-prefixed readable file `fn2`, walking
non-recursively strips `fn1` and leaves the subdirectory entirely untouched
with no error, while walking recursively strips both files. -/
theorem recursion_boundary (E : String) (bom : List Nat)
    (hE : BOM_ENCODINGS E = some bom)
    (dn fn1 sn fn2 : String) (c1 c2 : List Nat) :
    process_directory E false
        (Entry.dir dn [Entry.file fn1 (bom ++ c1) true,
          Entry.dir sn [Entry.file fn2 (bom ++ c2) true] true] true)
      = Entry.dir dn [Entry.file fn1 c1 true,
          Entry.dir sn [Entry.file fn2 (bom ++ c2) true] true] true
    ∧ process_directory E true
        (Entry.dir dn [Entry.file fn1 (bom ++ c1) true,
          Entry.dir sn [Entry.file fn2 (bom ++ c2) true] true] true)
      = Entry.dir dn [Entry.file fn1 c1 true,
          Entry.dir sn [Entry.file fn2 c2 true] true] true := by
  have h1 := process_file_strips E bom hE c1
  have h2 := process_file_strips E bom hE c2
  constructor <;>
    simp [process_directory, processEntries, processEntry, h1, h2]

/-- Witness for C7 at a concrete two-level tree under utf-8. -/
theorem recursion_boundary_witness :
    BOM_ENCODINGS "utf-8" = some BOM_UTF8
      ∧ process_directory "utf-8" false
          (Entry.dir "d" [Entry.file "f1" (BOM_UTF8 ++ [0x41]) true,
            Entry.dir "sub" [Entry.file "f2" (BOM_UTF8 ++ [0x42]) true] true] true)
        = Entry.dir "d" [Entry.file "f1" [0x41] true,
            Entry.dir "sub" [Entry.file "f2" (BOM_UTF8 ++ [0x42]) true] true] true :=
  ⟨by decide,
    (recursion_boundary "utf-8" BOM_UTF8 (by decide) "d" "f1" "sub" "f2" [0x41] [0x42]).1⟩

/-- C8: a failure while reading one file or listing one directory is
handled at that scope only: the failing entry is left unchanged (the error
is only logged and `remove_bom` reports its `ioError` outcome), the entries
before and after it in the same listing are processed exactly as they would
be on their own, and the walk of an unlistable directory aborts for that
directory alone — the traversal itself, being a total function, never
unwinds. -/
theorem errors_scoped (E : String) (r : Bool) :
    (∀ es1 es2 (n : String) (bs : List Entry),
        processEntries E r (es1 ++ Entry.dir n bs false :: es2)
          = processEntries E r es1 ++ Entry.dir n bs false :: processEntries E r es2)
      ∧ (∀ es1 es2 (n : String) (c : List Nat),
        processEntries E r (es1 ++ Entry.file n c false :: es2)
          = processEntries E r es1 ++ Entry.file n c false :: processEntries E r es2)
      ∧ (∀ (n : String) (bs : List Entry),
          process_directory E r (Entry.dir n bs false) = Entry.dir n bs false)
      ∧ (∀ enc : String, remove_bom none enc = RemoveBomOutcome.ioError) := by
  have hfile : ∀ (n : String) (c : List Nat),
      processEntry E r (Entry.file n c false) = Entry.file n c false := by
    intro n c
    simp [processEntry, process_file, remove_bom, writeEffect]
  have hdir : ∀ (n : String) (bs : List Entry),
      processEntry E r (Entry.dir n bs false) = Entry.dir n bs false := by
    intro n bs
    cases r <;> simp [processEntry]
  refine ⟨?_, ?_, ?_, fun enc => rfl⟩
  · intro es1 es2 n bs
    rw [processEntries_append]
    simp [processEntries, hdir]
  · intro es1 es2 n c
    rw [processEntries_append]
    simp [processEntries, hfile]
  · intro n bs
    simp [process_directory]

/-- C9: `remove_bom` reads the file before validating the encoding:
whenever the read fails, the outcome is the I/O error (logged, returning
`None`) for every encoding string — including "bogus", whose lookup fails —
so the `UnsupportedEncoding` outcome is reached only after a successful
read. -/
theorem read_happens_before_encoding_check :
    (∀ E, remove_bom none E = RemoveBomOutcome.ioError)
      ∧ BOM_ENCODINGS "bogus" = none
      ∧ remove_bom none "bogus" = RemoveBomOutcome.ioError
      ∧ remove_bom none "bogus" ≠ RemoveBomOutcome.unsupportedEncoding
      ∧ (∀ E, pyReturn (remove_bom none E) = none) := by
  refine ⟨fun E => rfl, by decide, rfl, by decide, fun E => rfl⟩

/-- C10: the directory walk is a terminating depth-first descent over the
finite entry tree (the translation is accepted by Lean as a total
recursion), and it processes the listing of every visited directory element
by element: the processed listing is the map of the single-entry step over
the original listing, so each immediate entry is visited exactly once and
the number of entries is preserved. -/
theorem walk_visits_each_entry_once (E : String) (r : Bool) (es : List Entry) :
    processEntries E r es = es.map (processEntry E r)
      ∧ (processEntries E r es).length = es.length
      ∧ ∀ (n : String) (l : Bool),
          process_directory E r (Entry.dir n es l)
            = if l then Entry.dir n (es.map (processEntry E r)) l
              else Entry.dir n es l := by
  have hmap : processEntries E r es = es.map (processEntry E r) := by
    induction es with
    | nil => simp [processEntries]
    | cons e es ih => simp [processEntries, ih]
  refine ⟨hmap, by rw [hmap]; simp, ?_⟩
  intro n l
  cases l <;> simp [process_directory, hmap]

end FileBomRemover
